import Mathlib

/-!
Shallow embedding of `translate.py` from the Easy-Translate repository.

Strings are modelled as `List Char`.  The external collaborators
(transformers model and tokenizer, torch, the `dataset` helper module,
the OS filesystem) are modelled explicitly: pure parts of the script are
translated directly, effectful calls become events in a trace, and the
external generation step is an abstract per-sentence translation
function supplied by the environment.
-/

set_option autoImplicit false

namespace EasyTranslate

/-- The three torch floating point dtypes selectable by `--precision`
(`torch.float16`, `torch.float32`, `torch.float64`). -/
inductive Dtype where
  | float16
  | float32
  | float64
deriving DecidableEq

/-- Device placement target of `model.to(...)`. -/
inductive Device where
  | cuda
  | cpu
deriving DecidableEq

/-- Uncaught Python exceptions / exits the script can produce:
the `ValueError` of the precision check, the `FileNotFoundError` of
`os.makedirs("")`, and the `SystemExit` of an argparse `choices`
violation. -/
inductive PyError where
  | valueError (msg : String)
  | fileNotFoundError
  | argparseExit
deriving DecidableEq

/-- Final outcome of a run: normal return or an uncaught exception. -/
inductive PyResult where
  | ok
  | raised (e : PyError)
deriving DecidableEq

/-- Observable external calls made by `main`, in order: loading the
tokenizer (line 26), loading the model (line 28), constructing the
dataloader (lines 38-43), the tensorrt trace/compile step
(lines 57-64) and the `.to(device, dtype)` placement (lines 66-69). -/
inductive Event where
  | loadTokenizer (modelName : List Char)
  | loadModel (modelName : List Char)
  | getDataloader (filename : List Char) (batchSize maxLength : Nat)
  | jitTraceCompile (batchSize maxLength : Nat) (dtype : Dtype)
  | toDevice (dev : Device) (dtype : Dtype)
deriving DecidableEq

/-- The parameters of `main` (translate.py lines 10-19). -/
structure Config where
  sentences_path : List Char
  output_path : List Char
  source_lang : List Char
  target_lang : List Char
  batch_size : Nat
  model_name : List Char
  tensorrt : Bool
  precision : Int
  max_length : Nat

/-- The external world a run interacts with: which directories exist,
whether CUDA is available, the lines of the input file, the content the
output file held before the run, and the black-box per-sentence
translation realised by `model.generate` plus `tokenizer.batch_decode`. -/
structure Env where
  dirs : List (List Char)
  cudaAvailable : Bool
  inputLines : List (List Char)
  outputPrior : List Char
  translate : List Char → List Char

/-- What a run produced: the trace of external calls, the directories
existing afterwards, the final content of the output file (`none` when
it was never opened) and the outcome. -/
structure RunResult where
  events : List Event
  dirs : List (List Char)
  output : Option (List Char)
  outcome : PyResult
deriving DecidableEq

/-- The prefix of `p` up to and including its last slash
(first step of `posixpath.dirname`: `p[:p.rfind(sep)+1]`). -/
def dropAfterLastSlash : List Char → List Char
  | [] => []
  | c :: rest =>
    let t := dropAfterLastSlash rest
    if t = [] then (if c = '/' then [c] else []) else c :: t

/-- Whether a path consists only of slashes. -/
def allSlashes (l : List Char) : Bool := l.all (fun c => c = '/')

/-- Remove trailing slashes (`head.rstrip(sep)` in `posixpath.dirname`). -/
def rstripSlashes (l : List Char) : List Char :=
  (l.reverse.dropWhile (fun c => c = '/')).reverse

/-- `os.path.dirname` for POSIX paths: the part before the last slash,
with trailing slashes stripped unless the head is all slashes; `[]`
(the empty string) when the path has no slash. -/
def pyDirname (p : List Char) : List Char :=
  let head := dropAfterLastSlash p
  if head = [] then [] else if allSlashes head then head else rstripSlashes head

/-- `os.path.exists` as used on line 22; `os.path.exists("")` is always
`False` in Python. -/
def osPathExists (dirs : List (List Char)) (p : List Char) : Bool :=
  if p = [] then false else decide (p ∈ dirs)

/-- `os.makedirs` as used on line 23: `os.makedirs("")` raises
`FileNotFoundError`; otherwise the directory is recorded as existing. -/
def osMakedirs (dirs : List (List Char)) (p : List Char) :
    Except PyError (List (List Char)) :=
  if p = [] then Except.error PyError.fileNotFoundError else Except.ok (p :: dirs)

/-- Lines 22-23 of `main`:
`if not os.path.exists(os.path.dirname(output_path)): os.makedirs(os.path.dirname(output_path))`. -/
def dirStep (dirs : List (List Char)) (outputPath : List Char) :
    Except PyError (List (List Char)) :=
  if osPathExists dirs (pyDirname outputPath) then Except.ok dirs
  else osMakedirs dirs (pyDirname outputPath)

/-- Lines 45-52 of `main`: the precision to dtype dispatch, raising
`ValueError` for any precision other than 16, 32 and 64. -/
def dtypeOfPrecision (precision : Int) : Except PyError Dtype :=
  if precision = 16 then Except.ok Dtype.float16
  else if precision = 32 then Except.ok Dtype.float32
  else if precision = 64 then Except.ok Dtype.float64
  else Except.error (PyError.valueError "Precision must be 16, 32 or 64.")

/-- Modelled from the spec: the `dataset` helper module is not in the
repository sources; per section 4.1 the dataloader yields "fixed-size
batches of non-empty text lines, preserving file order", so the loader
first keeps the non-empty lines of the file, in order. -/
def nonEmptyLines (lines : List (List Char)) : List (List Char) :=
  lines.filter (fun s => !s.isEmpty)

/-- Fuel-indexed chunking of a list into consecutive groups of size `k`
(the last group may be smaller); structural recursion on the fuel. -/
def chunksAux {α : Type} (k : Nat) : Nat → List α → List (List α)
  | 0, _ => []
  | _ + 1, [] => []
  | fuel + 1, a :: l => ((a :: l).take k) :: chunksAux k fuel ((a :: l).drop k)

/-- Modelled from the spec: the missing `dataset.get_dataloader` yields
the non-empty lines grouped into consecutive batches of `batch_size`,
preserving file order (spec sections 3 and 4.1). -/
def chunks {α : Type} (k : Nat) (l : List α) : List (List α) :=
  chunksAux k l.length l

/-- Python `"\n".join(...)` from line 84. -/
def joinLines : List (List Char) → List Char
  | [] => []
  | [s] => s
  | s :: ss => s ++ '\n' :: joinLines ss

/-- Line 84, `print("\n".join(tgt_text), file=output_file)`: append the
newline-joined batch plus the single newline that `print` adds. -/
def writeBatch (file : List Char) (tgt : List (List Char)) : List Char :=
  file ++ joinLines tgt ++ ['\n']

/-- The translation loop of lines 76-86: each batch is translated
sentence by sentence (the spec's generated and decoded batches hold one
entry per input sentence, in input order) and written with one `print`
call. -/
def translateLoop (t : List Char → List Char) :
    List (List (List Char)) → List Char → List Char
  | [], file => file
  | b :: bs, file => translateLoop t bs (writeBatch file (b.map t))

/-- Line 73: opening the output file with mode `"w+"` truncates it,
whatever it held before. -/
def openWPlus (_prior : List Char) : List Char := []

/-- The final content of the output file for a successful run:
the loop over the batches, started on the truncated file. -/
def mainOutput (t : List Char → List Char) (k : Nat)
    (lines : List (List Char)) (prior : List Char) : List Char :=
  translateLoop t (chunks k (nonEmptyLines lines)) (openWPlus prior)

/-- Split file content into its lines: segments separated by newline
characters, a trailing newline ending the last line (so `"a\nb\n"` has
the two lines `"a"` and `"b"`). The accumulator holds the current line
reversed. -/
def splitLinesAux : List Char → List Char → List (List Char)
  | acc, [] => if acc = [] then [] else [acc.reverse]
  | acc, c :: rest =>
    if c = '\n' then acc.reverse :: splitLinesAux [] rest
    else splitLinesAux (c :: acc) rest

/-- The lines of a file content. -/
def splitLines (content : List Char) : List (List Char) :=
  splitLinesAux [] content

/-- Shallow embedding of `main` (translate.py lines 10-88): directory
creation, tokenizer and model loading, dataloader construction with the
hardcoded `max_length=128` (line 42), the precision check, then either
the tensorrt trace/compile (using the `max_length` parameter, lines
57-64) or `.to(device, dtype)` with the device decided by
`torch.cuda.is_available()` (lines 66-69), and finally the translation
loop writing the output file. -/
def main (cfg : Config) (env : Env) : RunResult :=
  match dirStep env.dirs cfg.output_path with
  | Except.error e =>
    { events := [], dirs := env.dirs, output := none, outcome := PyResult.raised e }
  | Except.ok dirs1 =>
    let evLoad := [Event.loadTokenizer cfg.model_name, Event.loadModel cfg.model_name,
      Event.getDataloader cfg.sentences_path cfg.batch_size 128]
    match dtypeOfPrecision cfg.precision with
    | Except.error e =>
      { events := evLoad, dirs := dirs1, output := none, outcome := PyResult.raised e }
    | Except.ok dt =>
      let evDev := if cfg.tensorrt then Event.jitTraceCompile cfg.batch_size cfg.max_length dt
        else Event.toDevice (if env.cudaAvailable then Device.cuda else Device.cpu) dt
      { events := evLoad ++ [evDev], dirs := dirs1,
        output := some (mainOutput env.translate cfg.batch_size env.inputLines env.outputPrior),
        outcome := PyResult.ok }

/-- The command line entry point (lines 91-160): argparse checks
`--precision` against `choices=[16, 32, 64]` and exits before `main` is
called when the value is invalid; the CLI never passes `max_length`, so
`main` runs with its default 128. -/
def runCli (cfg : Config) (env : Env) : RunResult :=
  if cfg.precision = 16 ∨ cfg.precision = 32 ∨ cfg.precision = 64 then
    main { cfg with max_length := 128 } env
  else
    { events := [], dirs := env.dirs, output := none,
      outcome := PyResult.raised PyError.argparseExit }

/-- Whether an event is a tokenizer or model load. -/
def isLoadEvent : Event → Bool
  | Event.loadTokenizer _ => true
  | Event.loadModel _ => true
  | _ => false

/-- The `max_length` argument of a dataloader-construction event. -/
def dataloaderMaxLength : Event → Option Nat
  | Event.getDataloader _ _ m => some m
  | _ => none

/-- The arguments of a `.to(device, dtype)` placement event. -/
def toDeviceArgs : Event → Option (Device × Dtype)
  | Event.toDevice d dt => some (d, dt)
  | _ => none

/-- The arguments of a tensorrt trace/compile event. -/
def trtArgs : Event → Option (Nat × Nat × Dtype)
  | Event.jitTraceCompile b m dt => some (b, m, dt)
  | _ => none

/-- The loop only ever appends to the file it is given. -/
lemma translateLoop_eq (t : List Char → List Char) :
    ∀ (bs : List (List (List Char))) (file : List Char),
      translateLoop t bs file = file ++ translateLoop t bs [] := by
  intro bs
  induction bs with
  | nil => intro file; simp [translateLoop]
  | cons b bs ih =>
    intro file
    rw [translateLoop, translateLoop, ih (writeBatch file (b.map t)),
      ih (writeBatch [] (b.map t))]
    simp [writeBatch]

/-- Splitting off one newline-free line followed by a newline. -/
lemma splitLinesAux_line (s : List Char) (h : '\n' ∉ s) :
    ∀ (acc rest : List Char),
      splitLinesAux acc (s ++ '\n' :: rest) = (acc.reverse ++ s) :: splitLinesAux [] rest := by
  induction s with
  | nil => intro acc rest; simp [splitLinesAux]
  | cons c s ih =>
    intro acc rest
    have hc : c ≠ '\n' := fun hc => h (hc ▸ List.mem_cons_self c s)
    have hs : '\n' ∉ s := fun hs => h (List.mem_cons_of_mem c hs)
    rw [List.cons_append, splitLinesAux, if_neg hc, ih hs (c :: acc) rest]
    simp

/-- Splitting the newline-join of a non-empty list of newline-free
lines followed by a newline recovers exactly those lines. -/
lemma splitLinesAux_joinLines :
    ∀ (l : List (List Char)) (rest : List Char), l ≠ [] →
      (∀ s ∈ l, '\n' ∉ s) →
      splitLinesAux [] (joinLines l ++ '\n' :: rest) = l ++ splitLinesAux [] rest := by
  intro l
  induction l with
  | nil => intro rest h; exact absurd rfl h
  | cons s l ih =>
    intro rest _ h
    cases l with
    | nil =>
      rw [joinLines, splitLinesAux_line s (h s (List.mem_cons_self s [])) [] rest]
      simp
    | cons s2 l2 =>
      have hs : '\n' ∉ s := h s (List.mem_cons_self s (s2 :: l2))
      have h2 : ∀ x ∈ s2 :: l2, '\n' ∉ x := fun x hx => h x (List.mem_cons_of_mem s hx)
      rw [joinLines, List.append_assoc, List.cons_append,
        splitLinesAux_line s hs [] ((joinLines (s2 :: l2) ++ '\n' :: rest)),
        ih rest (List.cons_ne_nil s2 l2) h2]
      · simp
      · exact fun hq => (List.cons_ne_nil s2 l2) hq

/-- The lines of the content written by the loop, started on an empty
file, are the translations of the batched sentences in order. -/
lemma splitLines_translateLoop (t : List Char → List Char) :
    ∀ (bs : List (List (List Char))),
      (∀ b ∈ bs, b ≠ []) →
      (∀ b ∈ bs, ∀ s ∈ b, '\n' ∉ t s) →
      splitLines (translateLoop t bs []) = bs.flatten.map t := by
  intro bs
  induction bs with
  | nil => intro _ _; simp [translateLoop, splitLines, splitLinesAux]
  | cons b bs ih =>
    intro h1 h2
    have hb : b ≠ [] := h1 b (List.mem_cons_self b bs)
    rw [translateLoop, translateLoop_eq t bs (writeBatch [] (b.map t))]
    have hw : writeBatch [] (b.map t) ++ translateLoop t bs []
        = joinLines (b.map t) ++ '\n' :: translateLoop t bs [] := by
      simp [writeBatch]
    rw [splitLines, hw,
      splitLinesAux_joinLines (b.map t) (translateLoop t bs [])
        (fun hm => hb (List.map_eq_nil_iff.mp hm))
        (fun x hx => by
          obtain ⟨s, hs, rfl⟩ := List.mem_map.mp hx
          exact h2 b (List.mem_cons_self b bs) s hs),
      List.flatten_cons, List.map_append]
    have := ih (fun b2 hb2 => h1 b2 (List.mem_cons_of_mem b hb2))
      (fun b2 hb2 => h2 b2 (List.mem_cons_of_mem b hb2))
    rw [splitLines] at this
    rw [this]

/-- The result of `chunksAux` does not depend on the fuel, as long as
the fuel covers the length of the list. -/
lemma chunksAux_congr {α : Type} (k : Nat) (hk : 0 < k) :
    ∀ (f1 f2 : Nat) (l : List α), l.length ≤ f1 → l.length ≤ f2 →
      chunksAux k f1 l = chunksAux k f2 l := by
  intro f1
  induction f1 with
  | zero =>
    intro f2 l h1 _
    have : l = [] := List.eq_nil_of_length_eq_zero (Nat.le_zero.mp h1)
    subst this
    cases f2 <;> simp [chunksAux]
  | succ f1 ih =>
    intro f2 l h1 h2
    cases l with
    | nil => cases f2 <;> simp [chunksAux]
    | cons a tl =>
      cases f2 with
      | zero => simp at h2
      | succ f2 =>
        rw [chunksAux, chunksAux]
        have hd : ((a :: tl).drop k).length ≤ f1 := by
          rw [List.length_drop]
          simp only [List.length_cons] at h1 ⊢
          omega
        have hd2 : ((a :: tl).drop k).length ≤ f2 := by
          rw [List.length_drop]
          simp only [List.length_cons] at h2 ⊢
          omega
        rw [ih f2 ((a :: tl).drop k) hd hd2]

/-- Concatenating the chunks gives back the original list. -/
lemma chunksAux_flatten {α : Type} (k : Nat) (hk : 0 < k) :
    ∀ (fuel : Nat) (l : List α), l.length ≤ fuel →
      (chunksAux k fuel l).flatten = l := by
  intro fuel
  induction fuel with
  | zero =>
    intro l h
    have : l = [] := List.eq_nil_of_length_eq_zero (Nat.le_zero.mp h)
    subst this; simp [chunksAux]
  | succ fuel ih =>
    intro l h
    cases l with
    | nil => simp [chunksAux]
    | cons a tl =>
      rw [chunksAux, List.flatten_cons, ih ((a :: tl).drop k)
        (by rw [List.length_drop]; simp only [List.length_cons] at h ⊢; omega)]
      exact List.take_append_drop k (a :: tl)

/-- Concatenating the batches of the loader gives back the lines. -/
lemma chunks_flatten {α : Type} (k : Nat) (hk : 0 < k) (l : List α) :
    (chunks k l).flatten = l :=
  chunksAux_flatten k hk l.length l (Nat.le_refl _)

/-- Every batch produced from a list is non-empty. -/
lemma chunksAux_ne_nil {α : Type} (k : Nat) (hk : 0 < k) :
    ∀ (fuel : Nat) (l : List α), ∀ b ∈ chunksAux k fuel l, b ≠ [] := by
  intro fuel
  induction fuel with
  | zero => intro l b hb; simp [chunksAux] at hb
  | succ fuel ih =>
    intro l b hb
    cases l with
    | nil => simp [chunksAux] at hb
    | cons a tl =>
      rw [chunksAux] at hb
      rcases List.mem_cons.mp hb with h | h
      · subst h
        obtain ⟨k2, rfl⟩ := Nat.exists_eq_succ_of_ne_zero (Nat.pos_iff_ne_zero.mp hk)
        simp [List.take]
      · exact ih ((a :: tl).drop k) b h

/-- Every batch produced by the loader is non-empty. -/
lemma chunks_ne_nil {α : Type} (k : Nat) (hk : 0 < k) (l : List α) :
    ∀ b ∈ chunks k l, b ≠ [] :=
  chunksAux_ne_nil k hk l.length l

/-- The loader on a non-empty list yields at least one batch. -/
lemma chunks_nonempty {α : Type} (k : Nat) (l : List α) (hl : l ≠ []) :
    chunks k l ≠ [] := by
  cases l with
  | nil => exact absurd rfl hl
  | cons a tl => simp [chunks, chunksAux]

/-- The lines of the output file content are the translations of the
non-empty input lines, in input order. -/
lemma splitLines_mainOutput (t : List Char → List Char) (k : Nat)
    (lines : List (List Char)) (prior : List Char) (hk : 0 < k)
    (hnl : ∀ s ∈ nonEmptyLines lines, '\n' ∉ t s) :
    splitLines (mainOutput t k lines prior) = (nonEmptyLines lines).map t := by
  rw [mainOutput, openWPlus,
    splitLines_translateLoop t (chunks k (nonEmptyLines lines))
      (chunks_ne_nil k hk (nonEmptyLines lines))
      (fun b hb s hs => hnl s (by
        have : s ∈ (chunks k (nonEmptyLines lines)).flatten :=
          List.mem_flatten.mpr ⟨b, hb, hs⟩
        rwa [chunks_flatten k hk] at this)),
    chunks_flatten k hk]

/-- The newline-join of a non-empty list of non-empty newline-free
lines ends in a character other than the newline. -/
lemma joinLines_getLast :
    ∀ (l : List (List Char)), l ≠ [] → (∀ s ∈ l, s ≠ [] ∧ '\n' ∉ s) →
      ∃ c, (joinLines l).getLast? = some c ∧ c ≠ '\n' := by
  intro l
  induction l with
  | nil => intro h; exact absurd rfl h
  | cons s l ih =>
    intro _ h
    cases l with
    | nil =>
      obtain ⟨hs, hnl⟩ := h s (List.mem_cons_self s [])
      refine ⟨s.getLast hs, ?_, ?_⟩
      · rw [joinLines]; exact List.getLast?_eq_getLast s hs
      · exact fun hc => hnl (hc ▸ List.getLast_mem hs)
    | cons s2 l2 =>
      obtain ⟨c, hc, hcn⟩ := ih (List.cons_ne_nil s2 l2)
        (fun x hx => h x (List.mem_cons_of_mem s hx))
      have hJ : joinLines (s2 :: l2) ≠ [] := by
        intro hq; rw [hq] at hc; simp [List.getLast?] at hc
      refine ⟨c, ?_, hcn⟩
      rw [joinLines, List.getLast?_append_of_ne_nil s (List.cons_ne_nil '\n' _)]
      · show ((['\n'] : List Char) ++ joinLines (s2 :: l2)).getLast? = some c
        rw [List.getLast?_append_of_ne_nil ['\n'] hJ]
        exact hc
      · exact fun hq => (List.cons_ne_nil s2 l2) hq

/-- Content written by at least one batch of non-empty newline-free
translations ends with exactly one newline. -/
lemma translateLoop_trailing (t : List Char → List Char) :
    ∀ (bs : List (List (List Char))) (file : List Char), bs ≠ [] →
      (∀ b ∈ bs, b ≠ [] ∧ ∀ s ∈ b, t s ≠ [] ∧ '\n' ∉ t s) →
      ∃ s, translateLoop t bs file = s ++ ['\n'] ∧ s.getLast? ≠ some '\n' := by
  intro bs
  induction bs with
  | nil => intro file h; exact absurd rfl h
  | cons b bs ih =>
    intro file _ h
    cases bs with
    | nil =>
      obtain ⟨hb, hsen⟩ := h b (List.mem_cons_self b [])
      obtain ⟨c, hc, hcn⟩ := joinLines_getLast (b.map t)
        (fun hq => hb (List.map_eq_nil_iff.mp hq))
        (fun x hx => by
          obtain ⟨s, hs, rfl⟩ := List.mem_map.mp hx
          exact hsen s hs)
      refine ⟨file ++ joinLines (b.map t), ?_, ?_⟩
      · rw [translateLoop, translateLoop, writeBatch]
      · have hJ : joinLines (b.map t) ≠ [] := by
          intro hq; rw [hq] at hc; simp [List.getLast?] at hc
        rw [List.getLast?_append_of_ne_nil file hJ, hc]
        intro hq
        exact hcn (Option.some.inj hq)
    | cons b2 bs2 =>
      rw [translateLoop]
      exact ih (writeBatch file (b.map t)) (List.cons_ne_nil b2 bs2)
        (fun x hx => h x (List.mem_cons_of_mem b hx))

/-- A path without a slash has no prefix up to a last slash. -/
lemma dropAfterLastSlash_eq_nil :
    ∀ (p : List Char), '/' ∉ p → dropAfterLastSlash p = [] := by
  intro p
  induction p with
  | nil => intro _; rfl
  | cons c rest ih =>
    intro h
    have hc : c ≠ '/' := fun hc => h (hc ▸ List.mem_cons_self c rest)
    have hr : '/' ∉ rest := fun hr => h (List.mem_cons_of_mem c hr)
    rw [dropAfterLastSlash]
    simp [ih hr, hc]

/-- `os.path.dirname` of a bare filename is the empty string. -/
lemma pyDirname_eq_nil (p : List Char) (h : '/' ∉ p) : pyDirname p = [] := by
  rw [pyDirname]
  simp [dropAfterLastSlash_eq_nil p h]

/-- When the output path has no directory part, the directory-creation
step raises the `FileNotFoundError` of `os.makedirs("")`. -/
lemma dirStep_eq_error (ds : List (List Char)) (p : List Char)
    (h : pyDirname p = []) : dirStep ds p = Except.error PyError.fileNotFoundError := by
  rw [dirStep, h]
  simp [osPathExists, osMakedirs]

/-- When the output path has a directory part, the directory-creation
step succeeds and the directory exists afterwards. -/
lemma dirStep_ok_mem (ds : List (List Char)) (p : List Char)
    (h : pyDirname p ≠ []) :
    ∃ ds2, dirStep ds p = Except.ok ds2 ∧ pyDirname p ∈ ds2 := by
  rw [dirStep]
  by_cases hx : pyDirname p ∈ ds
  · simp [osPathExists, h, hx]
  · simp [osPathExists, osMakedirs, h, hx]

/-- A successful run passed the directory step and the precision check. -/
lemma main_ok_inv (cfg : Config) (env : Env)
    (hok : (main cfg env).outcome = PyResult.ok) :
    pyDirname cfg.output_path ≠ [] ∧
      ∃ dt, dtypeOfPrecision cfg.precision = Except.ok dt := by
  by_cases hd : pyDirname cfg.output_path = []
  · rw [main, dirStep_eq_error env.dirs cfg.output_path hd] at hok
    exact absurd hok (by simp)
  · refine ⟨hd, ?_⟩
    obtain ⟨ds2, hstep, _⟩ := dirStep_ok_mem env.dirs cfg.output_path hd
    rw [main, hstep] at hok
    cases hq : dtypeOfPrecision cfg.precision with
    | error e => rw [hq] at hok; exact absurd hok (by simp)
    | ok dt => exact ⟨dt, rfl⟩

/-- Explicit form of a run that passes the directory step and the
precision check. -/
lemma main_eq_of_ok (cfg : Config) (env : Env) (ds2 : List (List Char)) (dt : Dtype)
    (hstep : dirStep env.dirs cfg.output_path = Except.ok ds2)
    (hp : dtypeOfPrecision cfg.precision = Except.ok dt) :
    main cfg env =
      { events := [Event.loadTokenizer cfg.model_name, Event.loadModel cfg.model_name,
          Event.getDataloader cfg.sentences_path cfg.batch_size 128,
          if cfg.tensorrt then Event.jitTraceCompile cfg.batch_size cfg.max_length dt
          else Event.toDevice (if env.cudaAvailable then Device.cuda else Device.cpu) dt],
        dirs := ds2,
        output := some (mainOutput env.translate cfg.batch_size env.inputLines env.outputPrior),
        outcome := PyResult.ok } := by
  rw [main, hstep, hp]
  rfl

/-- A concrete translation function for evaluating the model on
concrete inputs. -/
def demoTranslate (s : List Char) : List Char := 'T' :: s

/-- A concrete environment: no directories yet, no CUDA, a three line
input file with one empty line, stale content in the output file. -/
def demoEnv : Env :=
  { dirs := [], cudaAvailable := false,
    inputLines := [String.toList "ab", [], String.toList "c"],
    outputPrior := String.toList "old content", translate := demoTranslate }

/-- A concrete valid configuration. -/
def demoCfg : Config :=
  { sentences_path := String.toList "in.txt",
    output_path := String.toList "out/res.txt",
    source_lang := String.toList "en", target_lang := String.toList "es",
    batch_size := 2, model_name := String.toList "m", tensorrt := false,
    precision := 32, max_length := 128 }

/-- Claim C1: for every CLI invocation with a precision other than 16,
32 or 64, the run fails (argparse rejects the value, `choices=[16, 32, 64]`)
and the tokenizer and the model are never loaded. -/
theorem invalid_precision_never_loads (cfg : Config) (env : Env)
    (h : ¬(cfg.precision = 16 ∨ cfg.precision = 32 ∨ cfg.precision = 64)) :
    (runCli cfg env).outcome = PyResult.raised PyError.argparseExit ∧
    ((runCli cfg env).events.all fun e => !isLoadEvent e) = true ∧
    (runCli cfg env).events = [] := by
  rw [runCli, if_neg h]
  exact ⟨rfl, rfl, rfl⟩

/-- Witness for C1 at the concrete invalid precision 8. -/
theorem invalid_precision_never_loads_witness :
    (runCli { demoCfg with precision := 8 } demoEnv).outcome
        = PyResult.raised PyError.argparseExit ∧
    ((runCli { demoCfg with precision := 8 } demoEnv).events.all
        fun e => !isLoadEvent e) = true ∧
    (runCli { demoCfg with precision := 8 } demoEnv).events = [] :=
  invalid_precision_never_loads { demoCfg with precision := 8 } demoEnv (by decide)

/-- Claim C3: whatever `max_length` is passed to `main`, the dataloader
is constructed with the hardcoded value 128: the dataloader-construction
events of the trace do not depend on `max_length`, and every recorded
dataloader `max_length` equals 128. -/
theorem dataloader_max_length_hardcoded (cfg : Config) (env : Env) (ml : Nat) :
    (main { cfg with max_length := ml } env).events.filterMap dataloaderMaxLength
      = (main cfg env).events.filterMap dataloaderMaxLength ∧
    (((main { cfg with max_length := ml } env).events.filterMap
        dataloaderMaxLength).all fun m => m == 128) = true := by
  cases hd : dirStep env.dirs cfg.output_path with
  | error e =>
    rw [main, main]
    show ((match dirStep env.dirs cfg.output_path with
      | Except.error e => _ | Except.ok dirs1 => _ : RunResult).events.filterMap _ = _) ∧ _
    rw [hd]
    simp [dataloaderMaxLength]
  | ok ds2 =>
    rw [main, main]
    show ((match dirStep env.dirs cfg.output_path with
      | Except.error e => _ | Except.ok dirs1 => _ : RunResult).events.filterMap _ = _) ∧ _
    rw [hd]
    cases hp : dtypeOfPrecision cfg.precision with
    | error e => simp [hp, dataloaderMaxLength]
    | ok dt =>
      simp only [hp]
      cases cfg.tensorrt <;>
        simp [dataloaderMaxLength, List.filterMap, toDeviceArgs]

/-- Claim C9: for an output path without any slash, `os.path.dirname`
gives the empty string, `os.path.exists("")` is false and
`os.makedirs("")` raises, so `main` fails in the directory-creation
step before any tokenizer or model loading and before the output file
is opened. -/
theorem bare_filename_fails_before_loading (cfg : Config) (env : Env)
    (h : '/' ∉ cfg.output_path) :
    (main cfg env).outcome = PyResult.raised PyError.fileNotFoundError ∧
    (main cfg env).events = [] ∧
    (main cfg env).output = none := by
  rw [main, dirStep_eq_error env.dirs cfg.output_path (pyDirname_eq_nil cfg.output_path h)]
  exact ⟨rfl, rfl, rfl⟩

/-- Witness for C9 at the concrete bare filename `res.txt`. -/
theorem bare_filename_fails_before_loading_witness :
    (main { demoCfg with output_path := String.toList "res.txt" } demoEnv).outcome
        = PyResult.raised PyError.fileNotFoundError ∧
    (main { demoCfg with output_path := String.toList "res.txt" } demoEnv).events = [] ∧
    (main { demoCfg with output_path := String.toList "res.txt" } demoEnv).output = none :=
  bare_filename_fails_before_loading
    { demoCfg with output_path := String.toList "res.txt" } demoEnv (by decide)

/-- Claim C2: a successful run writes one output line per non-empty
input line, and the i-th output line is the translation of the i-th
non-empty input line (batches are emitted in order). -/
theorem output_lines_match_input (cfg : Config) (env : Env)
    (hk : 0 < cfg.batch_size)
    (hnl : ∀ s ∈ nonEmptyLines env.inputLines, '\n' ∉ env.translate s)
    (hok : (main cfg env).outcome = PyResult.ok) :
    ∃ o, (main cfg env).output = some o ∧
      splitLines o = (nonEmptyLines env.inputLines).map env.translate ∧
      (splitLines o).length = (nonEmptyLines env.inputLines).length := by
  obtain ⟨hd, dt, hp⟩ := main_ok_inv cfg env hok
  obtain ⟨ds2, hstep, _⟩ := dirStep_ok_mem env.dirs cfg.output_path hd
  rw [main_eq_of_ok cfg env ds2 dt hstep hp]
  refine ⟨_, rfl, ?_, ?_⟩
  · exact splitLines_mainOutput env.translate cfg.batch_size env.inputLines
      env.outputPrior hk hnl
  · rw [splitLines_mainOutput env.translate cfg.batch_size env.inputLines
      env.outputPrior hk hnl, List.length_map]

/-- Witness for C2 on a concrete three line input with one empty line. -/
theorem output_lines_match_input_witness :
    ∃ o, (main demoCfg demoEnv).output = some o ∧
      splitLines o = (nonEmptyLines demoEnv.inputLines).map demoEnv.translate ∧
      (splitLines o).length = (nonEmptyLines demoEnv.inputLines).length :=
  output_lines_match_input demoCfg demoEnv (by decide) (by decide) (by decide)

/-- Claim C4: with an empty input file, a run with a valid precision and
a creatable output directory succeeds and writes an empty output file
(zero lines). -/
theorem empty_input_empty_output (cfg : Config) (env : Env)
    (hin : env.inputLines = [])
    (hd : pyDirname cfg.output_path ≠ [])
    (hp : cfg.precision = 16 ∨ cfg.precision = 32 ∨ cfg.precision = 64) :
    (main cfg env).outcome = PyResult.ok ∧
    (main cfg env).output = some [] ∧
    (main cfg env).output.map (fun o => (splitLines o).length) = some 0 := by
  obtain ⟨ds2, hstep, _⟩ := dirStep_ok_mem env.dirs cfg.output_path hd
  have hdt : ∃ dt, dtypeOfPrecision cfg.precision = Except.ok dt := by
    rcases hp with h | h | h <;> rw [dtypeOfPrecision] <;> simp [h]
  obtain ⟨dt, hdt⟩ := hdt
  rw [main_eq_of_ok cfg env ds2 dt hstep hdt]
  have hout : mainOutput env.translate cfg.batch_size env.inputLines env.outputPrior = [] := by
    rw [hin, mainOutput]
    rfl
  rw [hout]
  exact ⟨rfl, rfl, rfl⟩

/-- Witness for C4 on a concrete empty input file. -/
theorem empty_input_empty_output_witness :
    (main demoCfg { demoEnv with inputLines := [] }).outcome = PyResult.ok ∧
    (main demoCfg { demoEnv with inputLines := [] }).output = some [] ∧
    (main demoCfg { demoEnv with inputLines := [] }).output.map
      (fun o => (splitLines o).length) = some 0 :=
  empty_input_empty_output demoCfg { demoEnv with inputLines := [] }
    (by decide) (by decide) (by decide)

/-- Claim C5: after a successful run whose output directory did not
exist beforehand, the parent directory of the output path exists. -/
theorem output_dir_created (cfg : Config) (env : Env)
    (_hne : pyDirname cfg.output_path ∉ env.dirs)
    (hok : (main cfg env).outcome = PyResult.ok) :
    pyDirname cfg.output_path ∈ (main cfg env).dirs := by
  obtain ⟨hd, dt, hp⟩ := main_ok_inv cfg env hok
  obtain ⟨ds2, hstep, hmem⟩ := dirStep_ok_mem env.dirs cfg.output_path hd
  rw [main_eq_of_ok cfg env ds2 dt hstep hp]
  exact hmem

/-- Witness for C5: the concrete run creates directory `out`. -/
theorem output_dir_created_witness :
    pyDirname demoCfg.output_path ∈ (main demoCfg demoEnv).dirs :=
  output_dir_created demoCfg demoEnv (by decide) (by decide)

/-- Claim C6: the precision dispatch maps 16, 32, 64 to float16,
float32, float64, and in the non-tensorrt path the model is placed,
with the selected dtype, on CUDA exactly when CUDA is available and on
the CPU otherwise (the trace holds exactly one placement event). -/
theorem precision_dtype_and_device (cfg : Config) (env : Env) (dt : Dtype)
    (hd : pyDirname cfg.output_path ≠ [])
    (hp : dtypeOfPrecision cfg.precision = Except.ok dt)
    (htrt : cfg.tensorrt = false) :
    (dtypeOfPrecision 16 = Except.ok Dtype.float16 ∧
     dtypeOfPrecision 32 = Except.ok Dtype.float32 ∧
     dtypeOfPrecision 64 = Except.ok Dtype.float64) ∧
    (main cfg env).events.filterMap toDeviceArgs
      = [((if env.cudaAvailable then Device.cuda else Device.cpu), dt)] := by
  obtain ⟨ds2, hstep, _⟩ := dirStep_ok_mem env.dirs cfg.output_path hd
  refine ⟨⟨rfl, rfl, rfl⟩, ?_⟩
  rw [main_eq_of_ok cfg env ds2 dt hstep hp, htrt]
  cases env.cudaAvailable <;>
    simp [List.filterMap, toDeviceArgs, dataloaderMaxLength]

/-- Witness for C6 at precision 32 without CUDA. -/
theorem precision_dtype_and_device_witness :
    (dtypeOfPrecision 16 = Except.ok Dtype.float16 ∧
     dtypeOfPrecision 32 = Except.ok Dtype.float32 ∧
     dtypeOfPrecision 64 = Except.ok Dtype.float64) ∧
    (main demoCfg demoEnv).events.filterMap toDeviceArgs
      = [((if demoEnv.cudaAvailable then Device.cuda else Device.cpu), Dtype.float32)] :=
  precision_dtype_and_device demoCfg demoEnv Dtype.float32
    (by decide) rfl (by decide)

/-- Claim C7: in a run that passes the precision check, the tensorrt
compile path and the `.to(device)` placement path are mutually
exclusive and exactly one of them is taken; with tensorrt enabled the
traced/compiled plan replaces placement and no `.to(device)` happens. -/
theorem tensorrt_path_exclusive (cfg : Config) (env : Env) (dt : Dtype)
    (hd : pyDirname cfg.output_path ≠ [])
    (hp : dtypeOfPrecision cfg.precision = Except.ok dt) :
    ((main cfg env).events.filterMap trtArgs).length
      + ((main cfg env).events.filterMap toDeviceArgs).length = 1 ∧
    (cfg.tensorrt = true →
      (main cfg env).events.filterMap toDeviceArgs = [] ∧
      (main cfg env).events.filterMap trtArgs
        = [(cfg.batch_size, cfg.max_length, dt)]) := by
  obtain ⟨ds2, hstep, _⟩ := dirStep_ok_mem env.dirs cfg.output_path hd
  rw [main_eq_of_ok cfg env ds2 dt hstep hp]
  cases htrt : cfg.tensorrt <;>
    simp [List.filterMap, trtArgs, toDeviceArgs]

/-- Witness for C7 with tensorrt enabled. -/
theorem tensorrt_path_exclusive_witness :
    ((main { demoCfg with tensorrt := true } demoEnv).events.filterMap trtArgs).length
      + ((main { demoCfg with tensorrt := true } demoEnv).events.filterMap
          toDeviceArgs).length = 1 ∧
    (({ demoCfg with tensorrt := true } : Config).tensorrt = true →
      (main { demoCfg with tensorrt := true } demoEnv).events.filterMap toDeviceArgs = [] ∧
      (main { demoCfg with tensorrt := true } demoEnv).events.filterMap trtArgs
        = [(({ demoCfg with tensorrt := true } : Config).batch_size,
            ({ demoCfg with tensorrt := true } : Config).max_length, Dtype.float32)]) :=
  tensorrt_path_exclusive { demoCfg with tensorrt := true } demoEnv Dtype.float32
    (by decide) rfl

/-- Claim C8: the output file is opened in truncating mode, so a second
run with the same input and configuration, whatever the output file and
the directories held after the first run, produces the same output
content, of the same length and the same line count (generation is a
fixed function of the input, hence deterministic). -/
theorem rerun_overwrites_deterministically (cfg : Config) (env : Env)
    (ds : List (List Char)) (prior : List Char) :
    (main cfg { env with dirs := ds, outputPrior := prior }).output
      = (main cfg env).output ∧
    ((main cfg { env with dirs := ds, outputPrior := prior }).output.map
        List.length) = ((main cfg env).output.map List.length) ∧
    ((main cfg { env with dirs := ds, outputPrior := prior }).output.map
        (fun o => (splitLines o).length))
      = ((main cfg env).output.map (fun o => (splitLines o).length)) := by
  have key : (main cfg { env with dirs := ds, outputPrior := prior }).output
      = (main cfg env).output := by
    by_cases hd : pyDirname cfg.output_path = []
    · rw [main, main, dirStep_eq_error ds cfg.output_path hd,
        dirStep_eq_error env.dirs cfg.output_path hd]
    · obtain ⟨ds2, hstep2, _⟩ := dirStep_ok_mem ds cfg.output_path hd
      obtain ⟨ds3, hstep3, _⟩ := dirStep_ok_mem env.dirs cfg.output_path hd
      cases hp : dtypeOfPrecision cfg.precision with
      | error e =>
        rw [main, main, hstep2, hstep3]
        simp [hp]
      | ok dt =>
        rw [main_eq_of_ok cfg { env with dirs := ds, outputPrior := prior } ds2 dt hstep2 hp,
          main_eq_of_ok cfg env ds3 dt hstep3 hp]
        simp [mainOutput, openWPlus]
  exact ⟨key, by rw [key], by rw [key]⟩

/-- Claim C10: one `print` call appends exactly the newline-joined
batch plus one newline; an empty decoded batch would append a single
blank line; and for a non-empty input whose translations are non-empty
and newline-free the output file ends with exactly one trailing
newline. -/
theorem write_step_trailing_newline (file : List Char) (tgt : List (List Char))
    (t : List Char → List Char) (k : Nat) (lines : List (List Char))
    (prior : List Char) (hk : 0 < k)
    (hne : nonEmptyLines lines ≠ [])
    (ht : ∀ s ∈ nonEmptyLines lines, t s ≠ [] ∧ '\n' ∉ t s) :
    writeBatch file tgt = file ++ joinLines tgt ++ ['\n'] ∧
    writeBatch file [] = file ++ ['\n'] ∧
    ∃ s, mainOutput t k lines prior = s ++ ['\n'] ∧ s.getLast? ≠ some '\n' := by
  refine ⟨rfl, by simp [writeBatch, joinLines], ?_⟩
  rw [mainOutput, openWPlus]
  exact translateLoop_trailing t (chunks k (nonEmptyLines lines)) []
    (chunks_nonempty k (nonEmptyLines lines) hne)
    (fun b hb => ⟨chunks_ne_nil k hk (nonEmptyLines lines) b hb,
      fun s hs => ht s (by
        have : s ∈ (chunks k (nonEmptyLines lines)).flatten :=
          List.mem_flatten.mpr ⟨b, hb, hs⟩
        rwa [chunks_flatten k hk] at this)⟩)

/-- Witness for C10 on the concrete demo input. -/
theorem write_step_trailing_newline_witness :
    writeBatch (String.toList "x") [String.toList "a"]
      = String.toList "x" ++ joinLines [String.toList "a"] ++ ['\n'] ∧
    writeBatch (String.toList "x") [] = String.toList "x" ++ ['\n'] ∧
    ∃ s, mainOutput demoTranslate 2 demoEnv.inputLines [] = s ++ ['\n'] ∧
      s.getLast? ≠ some '\n' :=
  write_step_trailing_newline (String.toList "x") [String.toList "a"]
    demoTranslate 2 demoEnv.inputLines [] (by decide) (by decide) (by decide)

end EasyTranslate
